import Mathlib

/-!
Shallow embedding of the employee directory service in `employee.py`.

The service exposes four HTTP routes over a relational store with two
tables, `companies` and `employees`.  We model the store as explicit
state: each route handler becomes a pure function from the request data
and the current store to a response paired with the resulting store.
Raising `HTTPException` in the Python code before any mutation
corresponds to returning the error together with the unchanged store.

The bcrypt password hashing performed by `passlib` (`pwd_context.hash`,
used in `hash_password`) is an external library call with a random salt;
we model it as a function parameter `hashF : String → String` standing
for the hash-with-the-salt-drawn-for-this-call, so theorems about
hashing are stated for an arbitrary such function.
-/

namespace EmployeeService

/-- Row of the `companies` table (`class Company`): integer primary key
and a unique, required name. -/
structure Company where
  id : Nat
  name : String
deriving DecidableEq

/-- Row of the `employees` table (`class Employee`): integer primary
key, name, unique email, company name (foreign key to
`companies.name`), role, and the stored password hash. -/
structure Employee where
  id : Nat
  name : String
  email : String
  company : String
  role : String
  password_hash : String
deriving DecidableEq

/-- Response schema (`class EmployeeOut`): the public fields serialized
back to clients.  There is no `password_hash` field. -/
structure EmployeeOut where
  id : Nat
  name : String
  email : String
  company : String
  role : String
deriving DecidableEq

/-- Serialization of a stored row through `response_model=EmployeeOut`:
only the five public fields are kept. -/
def Employee.toOut (e : Employee) : EmployeeOut :=
  { id := e.id, name := e.name, email := e.email, company := e.company, role := e.role }

/-- The error raised by the handlers (`fastapi.HTTPException`). -/
structure HTTPException where
  status_code : Nat
  detail : String
deriving DecidableEq

instance {ε α : Type} [DecidableEq ε] [DecidableEq α] : DecidableEq (Except ε α) := fun a b =>
  match a, b with
  | Except.error x, Except.error y =>
      if h : x = y then Decidable.isTrue (congrArg Except.error h)
      else Decidable.isFalse (fun hh => h (Except.error.inj hh))
  | Except.ok x, Except.ok y =>
      if h : x = y then Decidable.isTrue (congrArg Except.ok h)
      else Decidable.isFalse (fun hh => h (Except.ok.inj hh))
  | Except.error _, Except.ok _ => Decidable.isFalse (fun hh => Except.noConfusion hh)
  | Except.ok _, Except.error _ => Decidable.isFalse (fun hh => Except.noConfusion hh)

/-- Python's `str.lower()` as used on the submitted company name
(`company.lower()`), modelled characterwise over the string's
characters; the inputs of interest are ASCII, where `Char.toLower`
agrees with Python. -/
def lower (s : String) : String :=
  String.mk (s.data.map Char.toLower)

/-- The database state: the two tables, plus the autoincrement counter
that assigns the next employee primary key. -/
structure Store where
  companies : List Company
  employees : List Employee
  nextId : Nat
deriving DecidableEq

/-- `POST /employees` (`create_employee`): lowercases the company name,
404s when no company row has exactly that lowercased name, 400s when
some employee row has exactly the submitted email, otherwise hashes the
password and inserts one new row, returning its public fields. -/
def create_employee (hashF : String → String)
    (name email company role password : String) (db : Store) :
    Except HTTPException EmployeeOut × Store :=
  let company_lower := lower company
  match db.companies.find? (fun c => c.name == company_lower) with
  | none =>
      (Except.error { status_code := 404, detail := "Company does not exist" }, db)
  | some _ =>
      match db.employees.find? (fun e => e.email == email) with
      | some _ =>
          (Except.error { status_code := 400, detail := "Employee with this email already exists" }, db)
      | none =>
          let hashed_password := hashF password
          let employee : Employee :=
            { id := db.nextId, name := name, email := email, company := company_lower,
              role := role, password_hash := hashed_password }
          (Except.ok employee.toOut,
            { db with employees := db.employees ++ [employee], nextId := db.nextId + 1 })

/-- Modelled from the spec: the syntactic email validation performed by
the framework on the `EmailStr` form field (`email: EmailStr =
Form(...)`); the validator itself is pydantic library code, not part of
this repository, and the spec only requires "email must be
syntactically valid".  We model it abstractly by the necessary shape of
an email address — a nonempty local part, an "@", and a nonempty
domain — which classifies every concrete email in this development the
same way pydantic does. -/
def email_valid (email : String) : Bool :=
  !(email.data.takeWhile (fun c => c != '@')).isEmpty &&
    decide (1 < (email.data.dropWhile (fun c => c != '@')).length)

/-- The `POST /employees` route as exposed by the framework: FastAPI
validates the `EmailStr` form field before the handler body runs and
rejects a syntactically invalid email with 422 Unprocessable Entity;
only a request that passes validation reaches `create_employee`. -/
def create_employee_route (hashF : String → String)
    (name email company role password : String) (db : Store) :
    Except HTTPException EmployeeOut × Store :=
  if email_valid email then
    create_employee hashF name email company role password db
  else
    (Except.error { status_code := 422, detail := "value is not a valid email address" }, db)

/-- `GET /employees` (`get_all_employees`): returns every stored row,
serialized, in storage order; it performs no writes. -/
def get_all_employees (db : Store) : List EmployeeOut × Store :=
  (db.employees.map Employee.toOut, db)

/-- `GET /employees/{employee_id}` (`get_employee`): primary-key lookup;
404 when absent, otherwise the serialized row; no writes. -/
def get_employee (employee_id : Nat) (db : Store) :
    Except HTTPException EmployeeOut × Store :=
  match db.employees.find? (fun e => e.id == employee_id) with
  | none =>
      (Except.error { status_code := 404, detail := "Employee not found" }, db)
  | some employee =>
      (Except.ok employee.toOut, db)

/-- `DELETE /employees/{employee_id}` (`delete_employee`): primary-key
lookup; 404 when absent, otherwise deletes exactly the found row and
returns no content (status 204). -/
def delete_employee (employee_id : Nat) (db : Store) :
    Except HTTPException Unit × Store :=
  match db.employees.find? (fun e => e.id == employee_id) with
  | none =>
      (Except.error { status_code := 404, detail := "Employee not found" }, db)
  | some _ =>
      (Except.ok (),
        { db with employees := db.employees.eraseP (fun e => e.id == employee_id) })

/-- Email uniqueness across all stored employees (the `unique=True`
constraint on `Employee.email`). -/
def Store.emailsUnique (s : Store) : Prop :=
  s.employees.Pairwise (fun a b => a.email ≠ b.email)

/-- Referential integrity: every employee's `company` field is the name
of some stored company (the foreign key to `companies.name`). -/
def Store.companiesValid (s : Store) : Prop :=
  ∀ e ∈ s.employees, ∃ c ∈ s.companies, c.name = e.company

/-- The spec's §3 invariant for the employee table. -/
def Store.Inv (s : Store) : Prop :=
  s.emailsUnique ∧ s.companiesValid

/-- Primary-key uniqueness of employee ids (the `primary_key=True`
constraint on `Employee.id`). -/
def Store.idsUnique (s : Store) : Prop :=
  s.employees.Pairwise (fun a b => a.id ≠ b.id)

/-- A sample bcrypt-shaped hash oracle used only in witnesses. -/
def hash0 : String → String :=
  fun s => "$2b$12$" ++ s

/-- Sample company rows and stores used only in concrete witnesses. -/
def acme : Company := { id := 1, name := "acme" }

def acmeUpper : Company := { id := 1, name := "Acme" }

def sampleEmp : Employee :=
  { id := 1, name := "Jane Doe", email := "jane@x.com", company := "acme",
    role := "engineer", password_hash := "$2b$12$secret" }

def db1 : Store := { companies := [acme], employees := [], nextId := 1 }

def db2 : Store := { companies := [acme], employees := [sampleEmp], nextId := 2 }

def dbAcmeUpper : Store := { companies := [acmeUpper], employees := [], nextId := 1 }

def db0 : Store := { companies := [], employees := [], nextId := 1 }

/-- C1 counterexample: the claim's "even when the email is
syntactically invalid → 404" fails at the service boundary.  Against a
store with no companies at all (so the company surely matches nothing),
a create submitting the invalid email "not-an-email" is rejected by the
framework's form validation with 422 before the handler runs, not with
the claimed 404. -/
theorem create_invalid_email_counterexample :
    db0.companies = [] ∧
    (create_employee_route hash0 "Jane Doe" "not-an-email" "globex" "engineer" "secret"
        db0).1 =
      Except.error { status_code := 422, detail := "value is not a valid email address" } ∧
    (create_employee_route hash0 "Jane Doe" "not-an-email" "globex" "engineer" "secret"
        db0).1 ≠
      Except.error { status_code := 404, detail := "Company does not exist" } :=
  ⟨rfl, by decide, by decide⟩

/-- C1 (amended): a create-employee request whose email passes the
framework's syntactic validation and whose lowercased company name
matches no stored company fails with 404 NotFound and leaves the store
unchanged, regardless of the other fields — in particular even when the
email duplicates a stored employee's email; a request whose email fails
that validation is instead rejected with 422 before the handler runs,
again leaving the store unchanged. -/
theorem create_nonexistent_company_404
    (hashF : String → String) (name email company role password : String) (db : Store)
    (h : ∀ c ∈ db.companies, c.name ≠ lower company) :
    (email_valid email = true →
      create_employee_route hashF name email company role password db =
        (Except.error { status_code := 404, detail := "Company does not exist" }, db)) ∧
    (email_valid email = false →
      create_employee_route hashF name email company role password db =
        (Except.error
            { status_code := 422, detail := "value is not a valid email address" },
          db)) := by
  constructor
  · intro hv
    have hf : db.companies.find? (fun c => c.name == lower company) = none := by
      rw [List.find?_eq_none]
      intro c hc
      simpa using h c hc
    simp [create_employee_route, hv, create_employee, hf]
  · intro hv
    simp [create_employee_route, hv]

/-- C1 witness: a concrete create against a store holding no company
named "globex" fails with 404 even though the submitted (syntactically
valid) email duplicates the stored employee's email. -/
theorem create_nonexistent_company_404_witness :
    create_employee_route hash0 "John Roe" "jane@x.com" "globex" "manager" "pw" db2 =
      (Except.error { status_code := 404, detail := "Company does not exist" }, db2) :=
  (create_nonexistent_company_404 hash0 "John Roe" "jane@x.com" "globex" "manager" "pw" db2
    (by decide)).1 (by decide)

/-- C2 counterexample: the claim's "if and only if ... compared
case-insensitively" fails.  With a stored company named "Acme", a create
submitting company "Acme" matches it case-insensitively (indeed the
names are identical), yet the code 404s, because only the submitted name
is lowercased and "acme" ≠ "Acme". -/
theorem company_match_case_counterexample :
    (∃ c ∈ dbAcmeUpper.companies, lower c.name = lower "Acme") ∧
    (create_employee hash0 "Jane Doe" "jane@x.com" "Acme" "engineer" "secret"
        dbAcmeUpper).1 =
      Except.error { status_code := 404, detail := "Company does not exist" } := by
  refine ⟨⟨acmeUpper, by simp [dbAcmeUpper], by decide⟩, by decide⟩

/-- C2 (amended): the submitted company name is lowercased before
lookup and before storage: the create 404s on the company check exactly
when no stored company name is literally the lowercased submitted name,
and a successful create's record has the lowercased input as its
company.  (Matching is therefore case-insensitive in the submitted name
only; a stored name containing an uppercase letter is never matched.) -/
theorem company_match_lowercase
    (hashF : String → String) (name email company role password : String) (db : Store) :
    ((create_employee hashF name email company role password db).1 =
        Except.error { status_code := 404, detail := "Company does not exist" } ↔
      ∀ c ∈ db.companies, c.name ≠ lower company) ∧
    (∀ out, (create_employee hashF name email company role password db).1 =
        Except.ok out → out.company = lower company) := by
  cases hf : db.companies.find? (fun c => c.name == lower company) with
  | none =>
      have hall : ∀ c ∈ db.companies, c.name ≠ lower company := by
        intro c hc
        simpa using List.find?_eq_none.mp hf c hc
      constructor
      · simp only [create_employee, hf]
        simpa using hall
      · intro out hout
        simp [create_employee, hf] at hout
  | some c =>
      have hc_mem : c ∈ db.companies := List.mem_of_find?_eq_some hf
      have hc_name : c.name = lower company := by
        simpa using List.find?_some hf
      cases he : db.employees.find? (fun e => e.email == email) with
      | some e =>
          constructor
          · simp only [create_employee, hf, he]
            constructor
            · intro hbad
              simp at hbad
            · intro hall
              exact absurd hc_name (hall c hc_mem)
          · intro out hout
            simp [create_employee, hf, he] at hout
      | none =>
          constructor
          · simp only [create_employee, hf, he]
            constructor
            · intro hbad
              simp at hbad
            · intro hall
              exact absurd hc_name (hall c hc_mem)
          · intro out hout
            simp only [create_employee, hf, he, Except.ok.injEq] at hout
            rw [← hout]
            rfl

/-- C2 witness: with company "acme" stored, a create submitting company
"ACME" succeeds and its record's company field is "acme". -/
theorem company_match_lowercase_witness :
    ({ id := 1, name := "Jane Doe", email := "jane@x.com", company := "acme",
        role := "engineer" } : EmployeeOut).company = lower "ACME" :=
  (company_match_lowercase hash0 "Jane Doe" "jane@x.com" "ACME" "engineer" "secret" db1).2
    { id := 1, name := "Jane Doe", email := "jane@x.com", company := "acme",
      role := "engineer" }
    (by decide)

/-- C3: when the lowercased company name matches a stored company but
the submitted email equals a stored employee's email, the create fails
with 400 Conflict and the store is unchanged (no row inserted). -/
theorem create_duplicate_email_400
    (hashF : String → String) (name email company role password : String) (db : Store)
    (hc : ∃ c ∈ db.companies, c.name = lower company)
    (he : ∃ e ∈ db.employees, e.email = email) :
    create_employee hashF name email company role password db =
      (Except.error
          { status_code := 400, detail := "Employee with this email already exists" },
        db) := by
  obtain ⟨c, hcm, hcn⟩ := hc
  obtain ⟨e, hem, hee⟩ := he
  have h1 : (db.companies.find? (fun c => c.name == lower company)).isSome := by
    rw [List.find?_isSome]
    exact ⟨c, hcm, by simp [hcn]⟩
  have h2 : (db.employees.find? (fun e => e.email == email)).isSome := by
    rw [List.find?_isSome]
    exact ⟨e, hem, by simp [hee]⟩
  obtain ⟨c', hc'⟩ := Option.isSome_iff_exists.mp h1
  obtain ⟨e', he'⟩ := Option.isSome_iff_exists.mp h2
  simp [create_employee, hc', he']

/-- C3 witness: a concrete create whose email is already stored fails
with 400 and leaves the store as it was. -/
theorem create_duplicate_email_400_witness :
    create_employee hash0 "John Roe" "jane@x.com" "acme" "manager" "newpw" db2 =
      (Except.error
          { status_code := 400, detail := "Employee with this email already exists" },
        db2) :=
  create_duplicate_email_400 hash0 "John Roe" "jane@x.com" "acme" "manager" "newpw" db2
    ⟨acme, by simp [db2], by decide⟩
    ⟨sampleEmp, by simp [db2], by decide⟩

/-- The sample hash oracle is not the identity on any input (it always
prepends a bcrypt prefix): used to discharge the one-way hypothesis in
witnesses. -/
theorem hash0_ne (s : String) : hash0 s ≠ s := by
  intro h
  have hl := congrArg String.length h
  simp only [hash0] at hl
  rw [String.length_append] at hl
  have h7 : "$2b$12$".length = 7 := rfl
  rw [h7] at hl
  omega

/-- C4: under serial execution each of the four operations preserves
the data-model invariant: emails pairwise distinct and every employee's
company field naming a stored company.  Create establishes both for the
new row through its two checks; get, list and delete never break them. -/
theorem operations_preserve_invariant
    (hashF : String → String) (name email company role password : String)
    (employee_id : Nat) (db : Store) (hinv : db.Inv) :
    (create_employee hashF name email company role password db).2.Inv ∧
    (get_all_employees db).2.Inv ∧
    (get_employee employee_id db).2.Inv ∧
    (delete_employee employee_id db).2.Inv := by
  obtain ⟨hu, hv⟩ := hinv
  refine ⟨?_, ?_, ?_, ?_⟩
  · cases hf : db.companies.find? (fun c => c.name == lower company) with
    | none => simpa [create_employee, hf] using ⟨hu, hv⟩
    | some c =>
        cases he : db.employees.find? (fun e => e.email == email) with
        | some e => simpa [create_employee, hf, he] using ⟨hu, hv⟩
        | none =>
            have hfresh : ∀ e ∈ db.employees, e.email ≠ email := by
              intro e hem
              simpa using List.find?_eq_none.mp he e hem
            have hc_mem : c ∈ db.companies := List.mem_of_find?_eq_some hf
            have hc_name : c.name = lower company := by
              simpa using List.find?_some hf
            simp only [create_employee, hf, he]
            constructor
            · show List.Pairwise _ (db.employees ++ [_])
              refine List.pairwise_append.mpr ⟨hu, List.pairwise_singleton _ _, ?_⟩
              intro a ha b hb
              rw [List.mem_singleton] at hb
              subst hb
              exact hfresh a ha
            · intro e hem
              rcases List.mem_append.mp hem with hl | hr
              · exact hv e hl
              · rw [List.mem_singleton] at hr
                subst hr
                exact ⟨c, hc_mem, hc_name⟩
  · simpa [get_all_employees] using ⟨hu, hv⟩
  · cases hg : db.employees.find? (fun e => e.id == employee_id) with
    | none => simpa [get_employee, hg] using ⟨hu, hv⟩
    | some e => simpa [get_employee, hg] using ⟨hu, hv⟩
  · cases hd : db.employees.find? (fun e => e.id == employee_id) with
    | none => simpa [delete_employee, hd] using ⟨hu, hv⟩
    | some e =>
        simp only [delete_employee, hd]
        constructor
        · exact List.Pairwise.sublist (List.eraseP_sublist _) hu
        · intro x hx
          exact hv x ((List.eraseP_sublist _).subset hx)

/-- C4 witness: the invariant holds of a concrete one-employee store
and is preserved by a concrete run of each operation. -/
theorem operations_preserve_invariant_witness :
    (create_employee hash0 "John Roe" "john@x.com" "ACME" "manager" "pw" db2).2.Inv ∧
    (get_all_employees db2).2.Inv ∧
    (get_employee 1 db2).2.Inv ∧
    (delete_employee 1 db2).2.Inv :=
  operations_preserve_invariant hash0 "John Roe" "john@x.com" "ACME" "manager" "pw" 1 db2
    ⟨by simp [Store.emailsUnique, db2],
     by
      intro e he
      simp only [db2, List.mem_singleton] at he
      subst he
      exact ⟨acme, by simp [db2], by decide⟩⟩

/-- C5: a successful create stores exactly the salted hash of the
submitted password (never the plaintext itself, given that the hash
function has no fixed point, as bcrypt's tagged output guarantees), and
no response of any operation carries the hash: serialization keeps
exactly the fields id, name, email, company and role and is insensitive
to the stored hash. -/
theorem password_hash_never_serialized
    (hashF : String → String) (name email company role password : String)
    (db : Store) (out : EmployeeOut) (db' : Store)
    (honeway : ∀ s, hashF s ≠ s)
    (hok : create_employee hashF name email company role password db =
      (Except.ok out, db')) :
    (∃ emp : Employee,
      db'.employees = db.employees ++ [emp] ∧
      emp.password_hash = hashF password ∧
      emp.password_hash ≠ password ∧
      out = emp.toOut) ∧
    (∀ e : Employee, ∀ s : String,
      Employee.toOut { e with password_hash := s } = e.toOut) ∧
    (∀ e : Employee, e.toOut =
      { id := e.id, name := e.name, email := e.email, company := e.company,
        role := e.role }) ∧
    (∀ r ∈ (get_all_employees db).1, ∃ e ∈ db.employees, r = e.toOut) ∧
    (∀ i : Nat, ∀ r, (get_employee i db).1 = Except.ok r →
      ∃ e ∈ db.employees, r = e.toOut) := by
  refine ⟨?_, fun e s => rfl, fun e => rfl, ?_, ?_⟩
  · cases hf : db.companies.find? (fun c => c.name == lower company) with
    | none => simp [create_employee, hf] at hok
    | some c =>
        cases he : db.employees.find? (fun e => e.email == email) with
        | some e => simp [create_employee, hf, he] at hok
        | none =>
            simp only [create_employee, hf, he, Prod.mk.injEq, Except.ok.injEq] at hok
            obtain ⟨h1, h2⟩ := hok
            refine ⟨{ id := db.nextId, name := name, email := email, company := lower company, role := role, password_hash := hashF password }, ?_, rfl, honeway password, h1.symm⟩
            rw [← h2]
  · intro r hr
    rw [get_all_employees] at hr
    obtain ⟨e, hem, hre⟩ := List.mem_map.mp hr
    exact ⟨e, hem, hre.symm⟩
  · intro i r hr
    cases hg : db.employees.find? (fun e => e.id == i) with
    | none => simp [get_employee, hg] at hr
    | some e =>
        simp only [get_employee, hg, Except.ok.injEq] at hr
        exact ⟨e, List.mem_of_find?_eq_some hg, hr.symm⟩

/-- C5 witness: a concrete create on a one-company store stores the
bcrypt-shaped hash of "secret", which differs from "secret". -/
theorem password_hash_never_serialized_witness :
    ∃ emp : Employee,
      db2.employees = db1.employees ++ [emp] ∧
      emp.password_hash = hash0 "secret" ∧
      emp.password_hash ≠ "secret" ∧
      sampleEmp.toOut = emp.toOut :=
  (password_hash_never_serialized hash0 "Jane Doe" "jane@x.com" "ACME" "engineer" "secret"
    db1 sampleEmp.toOut db2 hash0_ne (by decide)).1

/-- C6: get-by-identifier 404s exactly when no stored employee has the
requested id; otherwise it returns the public fields of a stored row
with that id; and it never changes the store. -/
theorem get_employee_spec (employee_id : Nat) (db : Store) :
    (get_employee employee_id db).2 = db ∧
    ((get_employee employee_id db).1 =
        Except.error { status_code := 404, detail := "Employee not found" } ↔
      ∀ e ∈ db.employees, e.id ≠ employee_id) ∧
    (∀ out, (get_employee employee_id db).1 = Except.ok out →
      ∃ e ∈ db.employees, e.id = employee_id ∧ out = e.toOut) := by
  cases hg : db.employees.find? (fun e => e.id == employee_id) with
  | none =>
      have hall : ∀ e ∈ db.employees, e.id ≠ employee_id := by
        intro e he
        simpa using List.find?_eq_none.mp hg e he
      refine ⟨by simp [get_employee, hg], ?_, ?_⟩
      · simp only [get_employee, hg]
        exact iff_of_true trivial hall
      · intro out hout
        simp [get_employee, hg] at hout
  | some e =>
      have hmem : e ∈ db.employees := List.mem_of_find?_eq_some hg
      have hid : e.id = employee_id := by
        simpa using List.find?_some hg
      refine ⟨by simp [get_employee, hg], ?_, ?_⟩
      · simp only [get_employee, hg]
        constructor
        · intro hbad
          simp at hbad
        · intro hall
          exact absurd hid (hall e hmem)
      · intro out hout
        simp only [get_employee, hg, Except.ok.injEq] at hout
        exact ⟨e, hmem, hid, hout.symm⟩

/-- C6 witness: in a concrete one-employee store, a get on an absent id
404s (applying the characterization at id 2). -/
theorem get_employee_spec_witness :
    (get_employee 2 db2).1 =
      Except.error { status_code := 404, detail := "Employee not found" } :=
  (get_employee_spec 2 db2).2.1.mpr (by decide)

/-- C7: assuming employee ids are pairwise distinct (the primary-key
constraint), a delete on an absent id 404s with the store unchanged; a
delete on a present id succeeds with no content, keeps the companies
table, removes exactly the row with that id leaving every other row in
place, and a subsequent get on that id 404s. -/
theorem delete_employee_spec (employee_id : Nat) (db : Store)
    (hids : db.idsUnique) :
    ((∀ e ∈ db.employees, e.id ≠ employee_id) →
      delete_employee employee_id db =
        (Except.error { status_code := 404, detail := "Employee not found" }, db)) ∧
    (∀ emp ∈ db.employees, emp.id = employee_id →
      (delete_employee employee_id db).1 = Except.ok () ∧
      (delete_employee employee_id db).2.companies = db.companies ∧
      (∃ l1 l2, db.employees = l1 ++ emp :: l2 ∧
        (delete_employee employee_id db).2.employees = l1 ++ l2) ∧
      (get_employee employee_id (delete_employee employee_id db).2).1 =
        Except.error { status_code := 404, detail := "Employee not found" }) := by
  constructor
  · intro hall
    have hg : db.employees.find? (fun e => e.id == employee_id) = none := by
      rw [List.find?_eq_none]
      intro e he
      simpa using hall e he
    simp [delete_employee, hg]
  · intro emp hmem hid
    have hsome : (db.employees.find? (fun e => e.id == employee_id)).isSome :=
      List.find?_isSome.mpr ⟨emp, hmem, by simp [hid]⟩
    obtain ⟨e0, he0⟩ := Option.isSome_iff_exists.mp hsome
    obtain ⟨a, l1, l2, hnl1, hpa, hleq, herase⟩ :=
      List.exists_of_eraseP hmem (p := fun e => e.id == employee_id) (by simp [hid])
    have haid : a.id = employee_id := by simpa using hpa
    have hids' : List.Pairwise (fun x y => x.id ≠ y.id) (l1 ++ a :: l2) := by
      rw [Store.idsUnique, hleq] at hids
      exact hids
    have hl2 : ∀ b ∈ l2, a.id ≠ b.id :=
      (List.pairwise_cons.mp (List.pairwise_append.mp hids').2.1).1
    have hempa : emp = a := by
      have hmem' : emp ∈ l1 ++ a :: l2 := hleq ▸ hmem
      rcases List.mem_append.mp hmem' with h1 | h2
      · exact absurd (by simp [hid]) (hnl1 emp h1)
      · rcases List.mem_cons.mp h2 with h3 | h4
        · exact h3
        · exact absurd (haid.trans hid.symm) (hl2 emp h4)
    have hclean : ∀ b ∈ l1 ++ l2, b.id ≠ employee_id := by
      intro b hb
      rcases List.mem_append.mp hb with h1 | h2
      · intro hb'
        exact hnl1 b h1 (by simp [hb'])
      · intro hb'
        exact hl2 b h2 (haid.trans hb'.symm)
    have hg2 : (l1 ++ l2).find? (fun e => e.id == employee_id) = none := by
      rw [List.find?_eq_none]
      intro b hb
      simpa using hclean b hb
    refine ⟨by simp [delete_employee, he0], by simp [delete_employee, he0],
      ⟨l1, l2, by rw [← hempa] at hleq; exact hleq, by simp [delete_employee, he0, herase]⟩, ?_⟩
    simp [delete_employee, he0, get_employee, herase, hg2]

/-- C7 witness: deleting the single stored employee (id 1) of a
concrete store succeeds, removes it, and a subsequent get on id 1
404s. -/
theorem delete_employee_spec_witness :
    (delete_employee 1 db2).1 = Except.ok () ∧
    (delete_employee 1 db2).2.companies = db2.companies ∧
    (∃ l1 l2, db2.employees = l1 ++ sampleEmp :: l2 ∧
      (delete_employee 1 db2).2.employees = l1 ++ l2) ∧
    (get_employee 1 (delete_employee 1 db2).2).1 =
      Except.error { status_code := 404, detail := "Employee not found" } :=
  (delete_employee_spec 1 db2 (by simp [Store.idsUnique, db2])).2 sampleEmp
    (by simp [db2]) rfl

/-- C8: list-employees takes no request data, never fails, leaves the
store unchanged and returns the serialization of every stored row, in
storage order and with no truncation. -/
theorem get_all_employees_spec (db : Store) :
    (get_all_employees db).2 = db ∧
    (get_all_employees db).1.length = db.employees.length ∧
    ∀ i : Nat, (get_all_employees db).1[i]? = db.employees[i]?.map Employee.toOut := by
  refine ⟨rfl, by simp [get_all_employees], ?_⟩
  intro i
  simp [get_all_employees]

/-- C8 witness: listing a concrete one-employee store yields that
employee's public record in position 0. -/
theorem get_all_employees_spec_witness :
    (get_all_employees db2).1[0]? = some sampleEmp.toOut :=
  ((get_all_employees_spec db2).2.2 0).trans (by decide)

/-- C9: each operation is atomic: a failing create or delete returns
the store exactly as it was; a successful create appends exactly one
row and touches nothing else; a successful delete removes exactly one
row (the surviving rows are a sublist of the old ones) and keeps the
companies table. -/
theorem atomicity_spec
    (hashF : String → String) (name email company role password : String)
    (employee_id : Nat) (db : Store) :
    (∀ err, (create_employee hashF name email company role password db).1 =
        Except.error err →
      (create_employee hashF name email company role password db).2 = db) ∧
    (∀ out, (create_employee hashF name email company role password db).1 =
        Except.ok out →
      ∃ emp, (create_employee hashF name email company role password db).2.employees =
          db.employees ++ [emp] ∧
        (create_employee hashF name email company role password db).2.companies =
          db.companies ∧
        (create_employee hashF name email company role password db).2.nextId =
          db.nextId + 1) ∧
    (∀ err, (delete_employee employee_id db).1 = Except.error err →
      (delete_employee employee_id db).2 = db) ∧
    ((delete_employee employee_id db).1 = Except.ok () →
      (delete_employee employee_id db).2.employees.length + 1 = db.employees.length ∧
      List.Sublist (delete_employee employee_id db).2.employees db.employees ∧
      (delete_employee employee_id db).2.companies = db.companies) := by
  refine ⟨?_, ?_, ?_, ?_⟩
  · intro err herr
    cases hf : db.companies.find? (fun c => c.name == lower company) with
    | none => simp [create_employee, hf]
    | some c =>
        cases he : db.employees.find? (fun e => e.email == email) with
        | some e => simp [create_employee, hf, he]
        | none => simp [create_employee, hf, he] at herr
  · intro out hout
    cases hf : db.companies.find? (fun c => c.name == lower company) with
    | none => simp [create_employee, hf] at hout
    | some c =>
        cases he : db.employees.find? (fun e => e.email == email) with
        | some e => simp [create_employee, hf, he] at hout
        | none =>
            exact ⟨{ id := db.nextId, name := name, email := email, company := lower company, role := role, password_hash := hashF password }, by simp [create_employee, hf, he], by simp [create_employee, hf, he], by simp [create_employee, hf, he]⟩
  · intro err herr
    cases hd : db.employees.find? (fun e => e.id == employee_id) with
    | none => simp [delete_employee, hd]
    | some e => simp [delete_employee, hd] at herr
  · intro hok
    cases hd : db.employees.find? (fun e => e.id == employee_id) with
    | none => simp [delete_employee, hd] at hok
    | some e =>
        have hmem : e ∈ db.employees := List.mem_of_find?_eq_some hd
        have hpe := List.find?_some hd
        refine ⟨?_, ?_, ?_⟩
        · simp only [delete_employee, hd]
          exact List.length_eraseP_add_one hmem hpe
        · simp only [delete_employee, hd]
          exact List.eraseP_sublist _
        · simp [delete_employee, hd]

/-- C9 witness: a concrete failing create (unknown company, duplicate
email present) leaves a concrete store untouched. -/
theorem atomicity_spec_witness :
    (create_employee hash0 "John Roe" "jane@x.com" "globex" "manager" "pw" db2).2 = db2 :=
  (atomicity_spec hash0 "John Roe" "jane@x.com" "globex" "manager" "pw" 5 db2).1
    { status_code := 404, detail := "Company does not exist" } (by decide)

/-- C10: the company-existence check runs before the email-uniqueness
check, so a request with an unknown company and an in-use email 404s
(never 400s); and emails are compared byte-for-byte without
lowercasing, so a create whose email differs from every stored email —
even only in letter case — passes the uniqueness check and succeeds. -/
theorem create_priority_and_email_case
    (hashF : String → String) (name email company role password : String) (db : Store) :
    ((∀ c ∈ db.companies, c.name ≠ lower company) →
      (∃ e ∈ db.employees, e.email = email) →
      (create_employee hashF name email company role password db).1 =
        Except.error { status_code := 404, detail := "Company does not exist" }) ∧
    ((∃ c ∈ db.companies, c.name = lower company) →
      (∀ e ∈ db.employees, e.email ≠ email) →
      ∃ out, (create_employee hashF name email company role password db).1 =
          Except.ok out ∧ out.email = email) := by
  constructor
  · intro hall hdup
    have hf : db.companies.find? (fun c => c.name == lower company) = none := by
      rw [List.find?_eq_none]
      intro c hc
      simpa using hall c hc
    simp [create_employee, hf]
  · intro hc hnone
    obtain ⟨c, hcm, hcn⟩ := hc
    have h1 : (db.companies.find? (fun c => c.name == lower company)).isSome := by
      rw [List.find?_isSome]
      exact ⟨c, hcm, by simp [hcn]⟩
    obtain ⟨c', hc'⟩ := Option.isSome_iff_exists.mp h1
    have he : db.employees.find? (fun e => e.email == email) = none := by
      rw [List.find?_eq_none]
      intro e he
      simpa using hnone e he
    refine ⟨Employee.toOut { id := db.nextId, name := name, email := email, company := lower company, role := role, password_hash := hashF password }, ?_, rfl⟩
    simp [create_employee, hc', he]

/-- C10 witness: with employee email "jane@x.com" stored, a create for
an unknown company with that same email 404s rather than 400s; and a
create for the stored company with email "JANE@x.com" — the stored
email up to case — succeeds. -/
theorem create_priority_and_email_case_witness :
    ((create_employee hash0 "John Roe" "jane@x.com" "globex" "manager" "pw" db2).1 =
      Except.error { status_code := 404, detail := "Company does not exist" }) ∧
    (∃ out, (create_employee hash0 "John Roe" "JANE@x.com" "acme" "manager" "pw" db2).1 =
      Except.ok out ∧ out.email = "JANE@x.com") :=
  ⟨(create_priority_and_email_case hash0 "John Roe" "jane@x.com" "globex" "manager" "pw"
      db2).1 (by decide) ⟨sampleEmp, by simp [db2], rfl⟩,
   (create_priority_and_email_case hash0 "John Roe" "JANE@x.com" "acme" "manager" "pw"
      db2).2 ⟨acme, by simp [db2], by decide⟩ (by decide)⟩

end EmployeeService
